import Mathlib

/-!
Shallow embedding of `split_by_section.py` (class `PDFChapterSplitter`) and
proofs about its outline-resolution and section-splitting logic.

Modelling conventions:
* A resolved section is the Python tuple `(title, page_index)`.
* PDF page objects are identified by an abstract numeric object id; the
  document's page list `pdf.pages` is a `List Nat` of those ids, and the
  page index of a page is its position in that list (Python `enumerate`).
* An outline node (`pikepdf` `OutlineItem`) carries an optional title
  (`hasattr(outline, 'title')`), a destination attribute that is either
  absent (`hasattr` false), present-but-`None`, or an array of objects whose
  first element is the target page object, and a list of children.
  A Boolean `destRaises` field models a node whose destination access or
  indexing raises an exception (a malformed destination).
* `split_pdf`'s interaction with the filesystem is modelled as a result of
  type `Except String (List Effect)`: a raised `FileNotFoundError` message,
  or the ordered list of directory-creation / message / file-write effects.
* Python `set` iteration order is not determined by the element set (string
  hashing is randomized per process), so the result of `set(sections)` is
  modelled as *any* duplicate-free enumeration `order` of the elements,
  constrained by `IsSetOrder`; `sorted(..., key=lambda x: x[1])` is modelled
  by the stable insertion sort `sortByPage`.
-/

namespace PdfSplitter

/-- A resolved section: `(title, pageIndex)` with a zero-based page index. -/
abbrev Sec := String × Nat

/-! ## Outline resolver: `_extract_outline` / `process_outlines` -/

/-- Model of a `pikepdf` outline node as probed by `process_outlines`:
`title = none` models `hasattr(outline, 'title')` being false;
`dest = none` models `hasattr(outline, 'destination')` being false,
`dest = some none` models `outline.destination is None`, and
`dest = some (some objs)` is the destination array of object ids;
`destRaises = true` models the destination access/indexing raising an
exception (a malformed destination); `children` is the child list
(empty when the node has none). -/
inductive ONode : Type where
  | mk (title : Option String) (destRaises : Bool)
       (dest : Option (Option (List Nat))) (children : List ONode)

/-- Embedding of the nested function `process_outlines(outlines, pdf)`.
`pages` is the document page list (object ids).  One loop iteration reads
the title (`continue` when absent), resolves the destination by scanning
`enumerate(pdf.pages)` for the first page whose object equals the
destination's first element, appends `(title, i)` on a match, then recurses
into the children.  The `try`/`except` wraps the *whole* `for` loop, so an
exception raised while processing one node is caught outside the loop and
the sections accumulated so far are returned: the raising node's remaining
siblings (and its own children) are never visited.  Recursive calls catch
their own exceptions, so a failure inside a child list does not abort the
parent level. -/
def processOutlines (pages : List Nat) : List ONode → List Sec
  | [] => []
  | ONode.mk title destRaises dest children :: rest =>
    match title with
    | none => processOutlines pages rest
    | some t =>
      if destRaises then
        []
      else
        (match dest with
         | some (some (pageObj :: _)) =>
           match List.findIdx? (fun pg => pg == pageObj) pages with
           | some i => [(t, i)]
           | none => []
         | _ => []) ++ processOutlines pages children ++ processOutlines pages rest

/-! ## Filename sanitization: `_sanitize_filename` -/

/-- The denylist `'<>:"/\\|?*'` from `_sanitize_filename`. -/
def invalidChars : List Char := ['<', '>', ':', '"', '/', '\\', '|', '?', '*']

/-- `''.join(c for c in title if c not in invalid_chars)`. -/
def stripInvalid (l : List Char) : List Char :=
  l.filter (fun c => !(invalidChars.contains c))

/-- Python `str.strip()`: drop leading and trailing whitespace. -/
def trimChars (l : List Char) : List Char :=
  ((l.dropWhile Char.isWhitespace).reverse.dropWhile Char.isWhitespace).reverse

/-- Python `str.rstrip('.')`: drop trailing `'.'` characters. -/
def rstripDots (l : List Char) : List Char :=
  (l.reverse.dropWhile (fun c => c == '.')).reverse

/-- The value of `filename` after `filename.strip()[:50].rstrip('.')`. -/
def sanitizeCore (title : List Char) : List Char :=
  rstripDots ((trimChars (stripInvalid title)).take 50)

/-- Embedding of `_sanitize_filename`: the sanitized name, or the literal
`"section"` when the sanitized name is empty. -/
def sanitizeFilename (title : String) : String :=
  if sanitizeCore title.data = [] then "section" else String.mk (sanitizeCore title.data)

/-! ## Sorting and deduplication: `sorted(set(sections), key=lambda x: x[1])` -/

/-- `order` is a possible iteration sequence of the Python set built from
`raw`: duplicate-free and containing exactly the elements of `raw`. -/
def IsSetOrder (raw order : List Sec) : Prop :=
  order.Nodup ∧ (∀ x ∈ order, x ∈ raw) ∧ (∀ x ∈ raw, x ∈ order)

instance (raw order : List Sec) : Decidable (IsSetOrder raw order) :=
  inferInstanceAs (Decidable (order.Nodup ∧ (∀ x ∈ order, x ∈ raw) ∧ (∀ x ∈ raw, x ∈ order)))

/-- One step of stable insertion sort by page index. -/
def insertByPage (x : Sec) : List Sec → List Sec
  | [] => [x]
  | y :: ys => if x.2 ≤ y.2 then x :: y :: ys else y :: insertByPage x ys

/-- Stable sort by page index, modelling `sorted(..., key=lambda x: x[1])`
applied to the set-iteration sequence. -/
def sortByPage (l : List Sec) : List Sec :=
  l.foldr insertByPage []

/-! ## Section splitter: `split_pdf` -/

/-- `sections.append(('End', len(reader.pages)))`. -/
def withEnd (secs : List Sec) (total : Nat) : List Sec :=
  secs ++ [("End", total)]

/-- The `(start_page, end_page)` pairs read off adjacent sections by the
loop `for i in range(len(sections) - 1)`. -/
def adjPairs : List Sec → List (Nat × Nat)
  | a :: b :: t => (a.2, b.2) :: adjPairs (b :: t)
  | _ => []

/-- All page ranges emitted for a resolved section list, including the
synthetic `('End', total)` boundary. -/
def sectionRanges (secs : List Sec) (total : Nat) : List (Nat × Nat) :=
  adjPairs (withEnd secs total)

/-- How many of the half-open ranges `[start, end)` in `rs` contain `p`. -/
def coverCount (rs : List (Nat × Nat)) (p : Nat) : Nat :=
  (rs.filter (fun r => decide (r.1 ≤ p ∧ p < r.2))).length

/-- Python `str(n).zfill(2)`. -/
def zfill2 (s : String) : String :=
  if 2 ≤ s.length then s else String.mk (List.replicate (2 - s.length) '0' ++ s.data)

/-- `f"{str(i+1).zfill(2)}_{safe_title}.pdf"` for loop index `i`. -/
def mkFilename (i : Nat) (title : String) : String :=
  zfill2 (toString (i + 1)) ++ "_" ++ sanitizeFilename title ++ ".pdf"

/-- The per-section outputs produced by the splitting loop, starting at loop
index `i`: for each adjacent pair, the output filename and the list of page
indices copied by `for page_num in range(start_page, end_page)`. -/
def outputsAux (i : Nat) : List Sec → List (String × List Nat)
  | a :: b :: t =>
    (mkFilename i a.1, List.range' a.2 (b.2 - a.2)) :: outputsAux (i + 1) (b :: t)
  | _ => []

/-- All outputs written by `split_pdf` for the sorted, deduplicated section
list `secs` of a document with `total` pages. -/
def sectionOutputs (secs : List Sec) (total : Nat) : List (String × List Nat) :=
  outputsAux 0 (withEnd secs total)

/-- Observable filesystem/console effects of `split_pdf`, in order. -/
inductive Effect : Type where
  | mkdirOutput
  | noOutlineMsg
  | writeFile (name : String) (pages : List Nat)
deriving DecidableEq

/-- Embedding of `split_pdf`.  `inputExists` models `os.path.exists` on the
normalized input path, `raw` is the resolver's output, `order` the
set-iteration sequence for `set(raw)` (see `IsSetOrder`), `total` the page
count `len(reader.pages)`.  A missing input raises
`FileNotFoundError(f"Input PDF not found: {self.input_pdf}")` before any
effect; otherwise the output directory is created, and either the
no-outline message is printed (empty `raw`) or one file per adjacent
section pair is written. -/
def splitPdf (inputExists : Bool) (inputPath : String) (raw order : List Sec)
    (total : Nat) : Except String (List Effect) :=
  if inputExists then
    if raw = [] then
      Except.ok [Effect.mkdirOutput, Effect.noOutlineMsg]
    else
      Except.ok (Effect.mkdirOutput ::
        (sectionOutputs (sortByPage order) total).map (fun fp => Effect.writeFile fp.1 fp.2))
  else
    Except.error ("Input PDF not found: " ++ inputPath)

/-- The number of file-write effects in a `split_pdf` result. -/
def writeCount : Except String (List Effect) → Nat
  | Except.ok effs =>
    (effs.filter (fun e => match e with
      | Effect.writeFile _ _ => true
      | _ => false)).length
  | Except.error _ => 0

/-! ## Lemmas about `_sanitize_filename` -/

theorem trimChars_subset (l : List Char) : trimChars l ⊆ l := by
  intro c hc
  unfold trimChars at hc
  rw [List.mem_reverse] at hc
  have hc2 := List.dropWhile_subset _ hc
  rw [List.mem_reverse] at hc2
  exact List.dropWhile_subset _ hc2

theorem sanitizeCore_subset (t : List Char) : sanitizeCore t ⊆ stripInvalid t := by
  intro c hc
  unfold sanitizeCore rstripDots at hc
  rw [List.mem_reverse] at hc
  have hc2 := List.dropWhile_subset _ hc
  rw [List.mem_reverse] at hc2
  exact trimChars_subset _ (List.mem_of_mem_take hc2)

theorem not_invalid_of_mem_stripInvalid {c : Char} {t : List Char}
    (h : c ∈ stripInvalid t) : c ∉ invalidChars := by
  unfold stripInvalid at h
  rw [List.mem_filter] at h
  intro hmem
  have : invalidChars.contains c = true := List.elem_iff.mpr hmem
  rw [this] at h
  simp at h

theorem sanitizeCore_length_le (t : List Char) : (sanitizeCore t).length ≤ 50 := by
  unfold sanitizeCore rstripDots
  rw [List.length_reverse]
  calc (List.dropWhile (fun c => c == '.') ((trimChars (stripInvalid t)).take 50).reverse).length
      ≤ ((trimChars (stripInvalid t)).take 50).reverse.length :=
        (List.dropWhile_sublist _).length_le
    _ ≤ 50 := by rw [List.length_reverse, List.length_take]; omega

theorem sanitizeCore_getLast?_ne_dot (t : List Char) :
    (sanitizeCore t).getLast? ≠ some '.' := by
  unfold sanitizeCore rstripDots
  rw [List.getLast?_reverse]
  have h := List.head?_dropWhile_not (fun c => c == '.')
    ((trimChars (stripInvalid t)).take 50).reverse
  revert h
  cases hh : (((trimChars (stripInvalid t)).take 50).reverse.dropWhile (fun c => c == '.')).head? with
  | none => intro _ hc; exact Option.noConfusion hc
  | some c =>
    intro h hc
    have hcdot : c = '.' := Option.some.inj hc
    subst hcdot
    simp at h

/-- Claim C5: for every input title, the result of `_sanitize_filename`
contains no character of the denylist `<>:"/\|?*`, has length at most 50,
does not end in `'.'`, and when stripping/trimming/truncating/dot-removal
leaves nothing the literal string `"section"` is returned. -/
theorem sanitize_filename_spec (title : String) :
    (∀ c ∈ (sanitizeFilename title).data, c ∉ invalidChars) ∧
    (sanitizeFilename title).length ≤ 50 ∧
    (sanitizeFilename title).data.getLast? ≠ some '.' ∧
    (sanitizeCore title.data = [] → sanitizeFilename title = "section") := by
  unfold sanitizeFilename
  by_cases hempty : sanitizeCore title.data = []
  · rw [if_pos hempty]
    refine ⟨?_, by decide, by decide, fun _ => rfl⟩
    intro c hc
    fin_cases hc <;> decide
  · rw [if_neg hempty]
    refine ⟨?_, ?_, ?_, fun h => absurd h hempty⟩
    · intro c hc
      exact not_invalid_of_mem_stripInvalid (sanitizeCore_subset _ hc)
    · show (sanitizeCore title.data).length ≤ 50
      exact sanitizeCore_length_le _
    · exact sanitizeCore_getLast?_ne_dot _

/-- Witness for C5 at the concrete all-invalid title `"***"`. -/
theorem sanitize_filename_spec_witness : sanitizeFilename "***" = "section" :=
  (sanitize_filename_spec "***").2.2.2 (by decide)

/-! ## Fatal setup error: missing input file (C7) -/

/-- Claim C7: when the (normalized, `.pdf`-suffixed) input path does not
exist, `split_pdf` raises `FileNotFoundError` with message
`"Input PDF not found: {path}"` before creating the output directory and
before writing any file: the run produces the error and no effect at all. -/
theorem input_missing_aborts (inputPath : String) (raw order : List Sec) (total : Nat) :
    splitPdf false inputPath raw order total
      = Except.error ("Input PDF not found: " ++ inputPath) := rfl

/-! ## Lemmas about `sorted(set(sections), key=lambda x: x[1])` -/

/-- The sort key comparison: `x[1] <= y[1]`. -/
def pageLe (a b : Sec) : Prop := a.2 ≤ b.2

theorem insertByPage_perm (x : Sec) (l : List Sec) :
    List.Perm (insertByPage x l) (x :: l) := by
  induction l with
  | nil => simp [insertByPage]
  | cons y ys ih =>
    unfold insertByPage
    by_cases h : x.2 ≤ y.2
    · rw [if_pos h]
    · rw [if_neg h]
      exact (ih.cons y).trans (List.Perm.swap x y ys)

theorem sortByPage_perm (l : List Sec) : List.Perm (sortByPage l) l := by
  induction l with
  | nil => exact List.Perm.refl _
  | cons a t ih =>
    show List.Perm (insertByPage a (sortByPage t)) (a :: t)
    exact (insertByPage_perm a (sortByPage t)).trans (ih.cons a)

theorem pairwise_insertByPage {x : Sec} {l : List Sec} (h : l.Pairwise pageLe) :
    (insertByPage x l).Pairwise pageLe := by
  induction l with
  | nil => simp [insertByPage, pageLe]
  | cons y ys ih =>
    rw [List.pairwise_cons] at h
    unfold insertByPage
    by_cases hxy : x.2 ≤ y.2
    · rw [if_pos hxy, List.pairwise_cons]
      constructor
      · intro b hb
        rcases List.mem_cons.mp hb with rfl | hb
        · exact hxy
        · exact Nat.le_trans hxy (h.1 b hb)
      · rw [List.pairwise_cons]
        exact h
    · rw [if_neg hxy, List.pairwise_cons]
      constructor
      · intro b hb
        have hb2 := (insertByPage_perm x ys).mem_iff.mp hb
        rcases List.mem_cons.mp hb2 with rfl | hb2
        · exact Nat.le_of_not_le hxy
        · exact h.1 b hb2
      · exact ih h.2

theorem sortByPage_pairwise (l : List Sec) : (sortByPage l).Pairwise pageLe := by
  induction l with
  | nil => simp [sortByPage]
  | cons a t ih => exact pairwise_insertByPage ih

theorem chain'_append_last {R : Sec → Sec → Prop} {l : List Sec} {x : Sec}
    (h : List.Chain' R l) (hlast : ∀ a, l.getLast? = some a → R a x) :
    List.Chain' R (l ++ [x]) := by
  rw [List.chain'_append]
  refine ⟨h, List.chain'_singleton x, ?_⟩
  intro a ha y hy
  simp only [List.head?_cons, Option.mem_def, Option.some.injEq] at hy
  subst hy
  exact hlast a (Option.mem_def.mp ha)

/-! ## Resolver page bounds (C9) -/

theorem processOutlines_page_lt (pages : List Nat) (nodes : List ONode) :
    ∀ s ∈ processOutlines pages nodes, s.2 < pages.length := by
  induction nodes using processOutlines.induct pages with
  | case1 => simp [processOutlines]
  | case2 destRaises dest children rest ih =>
    intro s hs
    rw [show processOutlines pages (ONode.mk none destRaises dest children :: rest)
          = processOutlines pages rest from by simp [processOutlines]] at hs
    exact ih s hs
  | case3 dest children rest t =>
    intro s hs
    rcases dest with _ | (_ | (_ | ⟨obj, objs⟩)) <;>
      simp [processOutlines] at hs
  | case4 destRaises dest children rest t hdr ihc ihr =>
    have hfalse : destRaises = false := by
      cases destRaises
      · rfl
      · exact absurd rfl hdr
    subst hfalse
    intro s hs
    rcases dest with _ | (_ | (_ | ⟨obj, objs⟩))
    · rw [show processOutlines pages (ONode.mk (some t) false none children :: rest)
            = processOutlines pages children ++ processOutlines pages rest from by
          simp [processOutlines]] at hs
      rcases List.mem_append.mp hs with h2 | h2
      · exact ihc s h2
      · exact ihr s h2
    · rw [show processOutlines pages (ONode.mk (some t) false (some none) children :: rest)
            = processOutlines pages children ++ processOutlines pages rest from by
          simp [processOutlines]] at hs
      rcases List.mem_append.mp hs with h2 | h2
      · exact ihc s h2
      · exact ihr s h2
    · rw [show processOutlines pages (ONode.mk (some t) false (some (some [])) children :: rest)
            = processOutlines pages children ++ processOutlines pages rest from by
          simp [processOutlines]] at hs
      rcases List.mem_append.mp hs with h2 | h2
      · exact ihc s h2
      · exact ihr s h2
    · cases hfind : List.findIdx? (fun pg => pg == obj) pages with
      | none =>
        rw [show processOutlines pages
              (ONode.mk (some t) false (some (some (obj :: objs))) children :: rest)
              = processOutlines pages children ++ processOutlines pages rest from by
            simp [processOutlines, hfind]] at hs
        rcases List.mem_append.mp hs with h2 | h2
        · exact ihc s h2
        · exact ihr s h2
      | some i =>
        rw [show processOutlines pages
              (ONode.mk (some t) false (some (some (obj :: objs))) children :: rest)
              = (t, i) :: (processOutlines pages children ++ processOutlines pages rest) from by
            simp [processOutlines, hfind]] at hs
        rcases List.mem_cons.mp hs with h2 | h2
        · rw [h2]
          exact (List.findIdx?_eq_some_iff_findIdx_eq.mp hfind).1
        · rcases List.mem_append.mp h2 with h3 | h3
          · exact ihc s h3
          · exact ihr s h3

theorem outputsAux_pages_lt (total : Nat) :
    ∀ (l : List Sec) (k : Nat), (∀ s ∈ l, s.2 ≤ total) →
      ∀ fp ∈ outputsAux k l, ∀ p ∈ fp.2, p < total := by
  intro l
  induction l with
  | nil =>
    intro k _ fp hfp
    simp [outputsAux] at hfp
  | cons a tl ih =>
    intro k hbound fp hfp p hp
    cases tl with
    | nil => simp [outputsAux] at hfp
    | cons b t =>
      rw [show outputsAux k (a :: b :: t)
            = (mkFilename k a.1, List.range' a.2 (b.2 - a.2)) :: outputsAux (k + 1) (b :: t)
          from rfl] at hfp
      rcases List.mem_cons.mp hfp with hfp2 | hfp2
      · subst hfp2
        have hp2 := List.mem_range'_1.mp hp
        have ha := hbound a (by simp)
        have hb := hbound b (by simp)
        omega
      · exact ih (k + 1) (fun s hs => hbound s (List.mem_cons_of_mem a hs)) fp hfp2 p hp

/-- Claim C9: every `(title, pageIndex)` pair emitted by `process_outlines`
has `pageIndex < len(pdf.pages)` (a section is appended only at an
enumerated page index), and consequently every `reader.pages[page_num]`
lookup performed by the splitting loop is within bounds. -/
theorem resolver_page_bounds (pages : List Nat) (nodes : List ONode) (order : List Sec)
    (h : IsSetOrder (processOutlines pages nodes) order) :
    (∀ s ∈ processOutlines pages nodes, s.2 < pages.length) ∧
    (∀ fp ∈ sectionOutputs (sortByPage order) pages.length, ∀ p ∈ fp.2, p < pages.length) := by
  constructor
  · exact processOutlines_page_lt pages nodes
  · intro fp hfp p hp
    apply outputsAux_pages_lt pages.length (withEnd (sortByPage order) pages.length) 0 ?_ fp hfp p hp
    intro s hs
    unfold withEnd at hs
    rcases List.mem_append.mp hs with hs2 | hs2
    · have h1 : s ∈ order := (sortByPage_perm order).mem_iff.mp hs2
      have h2 : s ∈ processOutlines pages nodes := h.2.1 s h1
      exact Nat.le_of_lt (processOutlines_page_lt pages nodes s h2)
    · have : s = ("End", pages.length) := by simpa using hs2
      rw [this]

/-- A sample page-object list: two pages with object ids 100 and 200. -/
def pagesEx : List Nat := [100, 200]

/-- A sample healthy outline node titled `"A"` resolving to page 0. -/
def nodeA : ONode := ONode.mk (some "A") false (some (some [100])) []

/-- Witness for C9 at a one-node outline over a two-page document. -/
theorem resolver_page_bounds_witness :
    (∀ s ∈ processOutlines pagesEx [nodeA], s.2 < pagesEx.length) ∧
    (∀ fp ∈ sectionOutputs (sortByPage [(("A" : String), 0)]) pagesEx.length,
      ∀ p ∈ fp.2, p < pagesEx.length) := by
  apply resolver_page_bounds
  have hpo : processOutlines pagesEx [nodeA] = [(("A" : String), 0)] := by
    simp [processOutlines, pagesEx, nodeA]
  rw [IsSetOrder, hpo]
  decide

/-! ## Sortedness invariant of the section sequence (C8) -/

/-- Claim C8: after sorting the deduplicated sections by page index the page
indices are non-decreasing; this is still true after appending the
synthetic `('End', totalPageCount)` entry; and whenever splitting proceeds
(non-empty resolver output) the appended sequence has at least 2 elements. -/
theorem sorted_sequence_invariant (pages : List Nat) (nodes : List ONode) (order : List Sec)
    (h : IsSetOrder (processOutlines pages nodes) order) :
    List.Chain' pageLe (sortByPage order) ∧
    List.Chain' pageLe (withEnd (sortByPage order) pages.length) ∧
    (processOutlines pages nodes ≠ [] →
      2 ≤ (withEnd (sortByPage order) pages.length).length) := by
  have hch : List.Chain' pageLe (sortByPage order) := (sortByPage_pairwise order).chain'
  refine ⟨hch, ?_, ?_⟩
  · apply chain'_append_last hch
    intro a ha
    have hmem : a ∈ sortByPage order := List.mem_of_getLast?_eq_some ha
    have h1 : a ∈ order := (sortByPage_perm order).mem_iff.mp hmem
    have h2 : a ∈ processOutlines pages nodes := h.2.1 a h1
    exact Nat.le_of_lt (processOutlines_page_lt pages nodes a h2)
  · intro hne
    rcases List.exists_mem_of_ne_nil _ hne with ⟨x, hx⟩
    have hxo : x ∈ order := h.2.2 x hx
    have hxs : x ∈ sortByPage order := (sortByPage_perm order).mem_iff.mpr hxo
    have hpos : 1 ≤ (sortByPage order).length :=
      List.length_pos.mpr (List.ne_nil_of_mem hxs)
    unfold withEnd
    rw [List.length_append]
    simp only [List.length_cons, List.length_nil]
    omega

/-- The strict sort-key comparison `x[1] < y[1]`, used to phrase the
"strictly increasing pageIndex values" premise of the partition property. -/
def pageLt (a b : Sec) : Prop := a.2 < b.2

instance : DecidableRel pageLt := fun a b => Nat.decLt a.2 b.2

instance : DecidableRel pageLe := fun a b => Nat.decLe a.2 b.2

/-- Witness for C8 at a one-node outline over a two-page document. -/
theorem sorted_sequence_invariant_witness :
    List.Chain' pageLe (sortByPage [(("A" : String), 0)]) ∧
    List.Chain' pageLe (withEnd (sortByPage [(("A" : String), 0)]) pagesEx.length) ∧
    2 ≤ (withEnd (sortByPage [(("A" : String), 0)]) pagesEx.length).length := by
  have hpo : processOutlines pagesEx [nodeA] = [(("A" : String), 0)] := by
    simp [processOutlines, pagesEx, nodeA]
  have h := sorted_sequence_invariant pagesEx [nodeA] [(("A" : String), 0)]
    (by rw [IsSetOrder, hpo]; decide)
  exact ⟨h.1, h.2.1, h.2.2 (by rw [hpo]; decide)⟩

/-! ## Partition of emitted page ranges (C1) -/

/-- The page index of the first section of a sequence (0 when empty). -/
def headPage : List Sec → Nat
  | [] => 0
  | a :: _ => a.2

/-- The page index of the last section of a sequence (0 when empty). -/
def lastPage : List Sec → Nat
  | [] => 0
  | [a] => a.2
  | _ :: b :: t => lastPage (b :: t)

theorem coverCount_cons (r : Nat × Nat) (rs : List (Nat × Nat)) (p : Nat) :
    coverCount (r :: rs) p = (if r.1 ≤ p ∧ p < r.2 then 1 else 0) + coverCount rs p := by
  unfold coverCount
  rw [List.filter_cons]
  by_cases h : r.1 ≤ p ∧ p < r.2
  · rw [if_pos (by simpa using h), if_pos h]
    simp [Nat.add_comm]
  · rw [if_neg (by simpa using h), if_neg h]
    simp

theorem headPage_le_lastPage (l : List Sec) (hch : List.Chain' pageLt l) :
    headPage l ≤ lastPage l := by
  induction l with
  | nil => exact Nat.le_refl 0
  | cons a tl ih =>
    cases tl with
    | nil => exact Nat.le_refl _
    | cons b t =>
      have hab : pageLt a b := (List.chain'_cons.mp hch).1
      have h2 := ih ((List.chain'_cons.mp hch).2)
      show a.2 ≤ lastPage (b :: t)
      calc a.2 ≤ b.2 := Nat.le_of_lt hab
        _ = headPage (b :: t) := rfl
        _ ≤ lastPage (b :: t) := h2

theorem coverCount_adjPairs :
    ∀ (l : List Sec), List.Chain' pageLt l → l ≠ [] →
      ∀ p, coverCount (adjPairs l) p
        = if headPage l ≤ p ∧ p < lastPage l then 1 else 0 := by
  intro l
  induction l with
  | nil => intro _ h; exact absurd rfl h
  | cons a tl ih =>
    intro hch _ p
    cases tl with
    | nil =>
      rw [show adjPairs [a] = [] from rfl, show coverCount [] p = 0 from rfl,
        show headPage [a] = a.2 from rfl, show lastPage [a] = a.2 from rfl,
        if_neg (by omega)]
    | cons b t =>
      have hab : a.2 < b.2 := (List.chain'_cons.mp hch).1
      have hch2 : List.Chain' pageLt (b :: t) := (List.chain'_cons.mp hch).2
      have hbl : b.2 ≤ lastPage (b :: t) := headPage_le_lastPage (b :: t) hch2
      rw [show adjPairs (a :: b :: t) = (a.2, b.2) :: adjPairs (b :: t) from rfl,
        coverCount_cons, ih hch2 (by simp) p,
        show headPage (a :: b :: t) = a.2 from rfl,
        show lastPage (a :: b :: t) = lastPage (b :: t) from rfl,
        show headPage (b :: t) = b.2 from rfl]
      by_cases h1 : a.2 ≤ p ∧ p < b.2
      · by_cases h2 : b.2 ≤ p ∧ p < lastPage (b :: t)
        · exfalso
          omega
        · rw [if_pos h1, if_neg h2, if_pos (by omega)]
      · by_cases h2 : b.2 ≤ p ∧ p < lastPage (b :: t)
        · rw [if_neg h1, if_pos h2, if_pos (by omega)]
        · rw [if_neg h1, if_neg h2, if_neg (by omega)]

theorem lastPage_append_singleton : ∀ (l : List Sec) (x : Sec), lastPage (l ++ [x]) = x.2 := by
  intro l
  induction l with
  | nil => intro x; rfl
  | cons a t ih =>
    intro x
    cases t with
    | nil => rfl
    | cons b t2 =>
      show lastPage (b :: (t2 ++ [x])) = x.2
      exact ih x

theorem headPage_withEnd (secs : List Sec) (total : Nat) (h : secs ≠ []) :
    headPage (withEnd secs total) = headPage secs := by
  cases secs with
  | nil => exact absurd rfl h
  | cons a t => rfl

theorem chain'_pageLt_withEnd (secs : List Sec) (total : Nat)
    (hinc : List.Chain' pageLt secs) (hbound : ∀ s ∈ secs, s.2 < total) :
    List.Chain' pageLt (withEnd secs total) := by
  apply chain'_append_last hinc
  intro a ha
  exact hbound a (List.mem_of_getLast?_eq_some ha)

/-- Counterexample to claim C1 as stated: with a single section at page 1 of
a 2-page document the premises hold (strictly increasing page indexes,
all below the page count), yet page 0 is covered by no emitted range, so
the ranges do not partition `[0, totalPageCount)`. -/
theorem ranges_partition_counterexample :
    List.Chain' pageLt [(("A" : String), 1)] ∧
    (∀ s ∈ [(("A" : String), 1)], s.2 < 2) ∧
    coverCount (sectionRanges [(("A" : String), 1)] 2) 0 = 0 :=
  ⟨List.chain'_singleton _, by decide, by decide⟩

/-- Claim C1 (amended): for a non-empty resolved, deduplicated, sorted
section sequence with strictly increasing page indexes below
`totalPageCount`, the emitted ranges exactly partition
`[sections[0].pageIndex, totalPageCount)`: every page in that interval lies
in exactly one range and every page outside it in none.  (As stated the
claim is false: pages before the first section's page are not covered.) -/
theorem ranges_partition (secs : List Sec) (total : Nat)
    (hne : secs ≠ [])
    (hinc : List.Chain' pageLt secs)
    (hbound : ∀ s ∈ secs, s.2 < total) :
    ∀ p : Nat, coverCount (sectionRanges secs total) p
      = if headPage secs ≤ p ∧ p < total then 1 else 0 := by
  intro p
  have h1 : List.Chain' pageLt (withEnd secs total) :=
    chain'_pageLt_withEnd secs total hinc hbound
  have h2 := coverCount_adjPairs (withEnd secs total) h1 (by simp [withEnd]) p
  rw [show sectionRanges secs total = adjPairs (withEnd secs total) from rfl, h2,
    headPage_withEnd secs total hne,
    show lastPage (withEnd secs total) = total from lastPage_append_singleton secs ("End", total)]

/-- Witness for C1 (amended) at sections `[("A",0), ("B",2)]` of a 4-page
document, evaluated at page 3. -/
theorem ranges_partition_witness :
    coverCount (sectionRanges [(("A" : String), 0), (("B" : String), 2)] 4) 3
      = if headPage [(("A" : String), 0), (("B" : String), 2)] ≤ 3 ∧ 3 < 4 then 1 else 0 :=
  ranges_partition [(("A" : String), 0), (("B" : String), 2)] 4
    (by decide) (List.chain'_pair.mpr (by decide)) (by decide) 3

/-! ## Output file count (C4) -/

theorem outputsAux_length : ∀ (l : List Sec) (k : Nat),
    (outputsAux k l).length = l.length - 1 := by
  intro l
  induction l with
  | nil => intro k; rfl
  | cons a tl ih =>
    intro k
    cases tl with
    | nil => rfl
    | cons b t =>
      rw [show outputsAux k (a :: b :: t)
            = (mkFilename k a.1, List.range' a.2 (b.2 - a.2)) :: outputsAux (k + 1) (b :: t)
          from rfl]
      rw [List.length_cons, ih (k + 1)]
      simp

theorem sectionOutputs_length (secs : List Sec) (total : Nat) :
    (sectionOutputs secs total).length = secs.length := by
  unfold sectionOutputs withEnd
  rw [outputsAux_length]
  simp

theorem filter_writes (L : List (String × List Nat)) :
    (List.map (fun fp => Effect.writeFile fp.1 fp.2) L).filter
      (fun e => match e with
        | Effect.writeFile _ _ => true
        | _ => false)
      = List.map (fun fp => Effect.writeFile fp.1 fp.2) L := by
  induction L with
  | nil => rfl
  | cons x xs ih => rw [List.map_cons, List.filter_cons, if_pos rfl, ih]

theorem writeCount_splitPdf (inputPath : String) (raw order : List Sec) (total : Nat)
    (hraw : raw ≠ []) :
    writeCount (splitPdf true inputPath raw order total) = order.length := by
  rw [show splitPdf true inputPath raw order total
        = Except.ok (Effect.mkdirOutput ::
            (sectionOutputs (sortByPage order) total).map (fun fp => Effect.writeFile fp.1 fp.2))
      from by simp [splitPdf, hraw]]
  simp only [writeCount]
  rw [List.filter_cons, if_neg (by simp), filter_writes,
    List.length_map, sectionOutputs_length, (sortByPage_perm order).length_eq]

/-- Claim C4: for a document with a non-empty resolved outline (and no
per-section write failure, which the effect model does not inject), the
number of files written by `split_pdf` equals the number of deduplicated
`(title, pageIndex)` sections, not counting the synthetic `('End', total)`
entry. -/
theorem output_file_count (inputPath : String) (raw order : List Sec) (total : Nat)
    (hraw : raw ≠ []) (_h : IsSetOrder raw order) :
    writeCount (splitPdf true inputPath raw order total) = order.length :=
  writeCount_splitPdf inputPath raw order total hraw

/-- Witness for C4 at a single-section document. -/
theorem output_file_count_witness :
    writeCount (splitPdf true "in" [(("A" : String), 0)] [(("A" : String), 0)] 2) = 1 :=
  output_file_count "in" [(("A" : String), 0)] [(("A" : String), 0)] 2 (by decide) (by decide)

/-! ## Zero-page sections are still emitted (C10) -/

theorem outputsAux_getElem? :
    ∀ (l : List Sec) (k i : Nat), i + 1 < l.length →
      (outputsAux k l)[i]? = some (mkFilename (k + i) ((l.getD i ("", 0)).1),
        List.range' (l.getD i ("", 0)).2 ((l.getD (i + 1) ("", 0)).2 - (l.getD i ("", 0)).2)) := by
  intro l
  induction l with
  | nil =>
    intro k i h
    simp at h
  | cons a tl ih =>
    intro k i h
    cases tl with
    | nil => simp at h
    | cons b t =>
      cases i with
      | zero =>
        rw [show outputsAux k (a :: b :: t)
              = (mkFilename k a.1, List.range' a.2 (b.2 - a.2)) :: outputsAux (k + 1) (b :: t)
            from rfl]
        simp [List.getD]
      | succ j =>
        have h2 : j + 1 < (b :: t).length := by
          simp at h ⊢
          omega
        rw [show outputsAux k (a :: b :: t)
              = (mkFilename k a.1, List.range' a.2 (b.2 - a.2)) :: outputsAux (k + 1) (b :: t)
            from rfl]
        rw [List.getElem?_cons_succ, ih (k + 1) j h2,
          show k + 1 + j = k + (j + 1) from by omega]
        simp [List.getD_cons_succ]

/-- Claim C10: when two adjacent sections of the sorted sequence share the
same page index (`start = end`), `split_pdf` still emits an output file for
the first of them: the page-copy loop copies zero pages and a zero-page
document is written, rather than the emission being skipped. -/
theorem zero_page_section_written (secs : List Sec) (total : Nat) (i : Nat)
    (hi : i + 1 < secs.length)
    (heq : (secs.getD i ("", 0)).2 = (secs.getD (i + 1) ("", 0)).2) :
    (sectionOutputs secs total).length = secs.length ∧
    (sectionOutputs secs total)[i]? = some (mkFilename i ((secs.getD i ("", 0)).1), []) := by
  refine ⟨sectionOutputs_length secs total, ?_⟩
  unfold sectionOutputs
  have hlen : i + 1 < (withEnd secs total).length := by
    unfold withEnd
    rw [List.length_append]
    simp
    omega
  rw [outputsAux_getElem? (withEnd secs total) 0 i hlen]
  have g1 : (withEnd secs total).getD i ("", 0) = secs.getD i ("", 0) := by
    unfold withEnd
    rw [List.getD_eq_getElem?_getD, List.getElem?_append_left (by omega),
      ← List.getD_eq_getElem?_getD]
  have g2 : (withEnd secs total).getD (i + 1) ("", 0) = secs.getD (i + 1) ("", 0) := by
    unfold withEnd
    rw [List.getD_eq_getElem?_getD, List.getElem?_append_left (by omega),
      ← List.getD_eq_getElem?_getD]
  rw [g1, g2, heq]
  simp

/-- Witness for C10: two differently-titled sections both at page 5 of a
6-page document; the first output file has zero pages but is written. -/
theorem zero_page_section_written_witness :
    (sectionOutputs [(("A" : String), 5), (("B" : String), 5)] 6).length = 2 ∧
    (sectionOutputs [(("A" : String), 5), (("B" : String), 5)] 6)[0]?
      = some (mkFilename 0 "A", []) :=
  zero_page_section_written [(("A" : String), 5), (("B" : String), 5)] 6 0
    (by decide) (by decide)

/-! ## Deduplication of same-page bookmarks (C3) -/

theorem filter_eq_length_one {l : List Sec} {p : Sec} (hnd : l.Nodup) (hp : p ∈ l) :
    (l.filter (fun s => decide (s = p))).length = 1 := by
  induction l with
  | nil => simp at hp
  | cons a t ih =>
    rw [List.filter_cons]
    rcases List.mem_cons.mp hp with rfl | hp2
    · rw [if_pos (by simp)]
      have hpt : p ∉ t := (List.nodup_cons.mp hnd).1
      have hft : t.filter (fun s => decide (s = p)) = [] := by
        rw [List.filter_eq_nil_iff]
        intro b hb hbp
        exact hpt ((of_decide_eq_true hbp) ▸ hb)
      simp [hft]
    · have hne : a ≠ p := fun h => (List.nodup_cons.mp hnd).1 (h ▸ hp2)
      rw [if_neg (by simp [hne])]
      exact ih (List.nodup_cons.mp hnd).2 hp2

/-- Counterexample to claim C3 as stated: two bookmarks with *different*
titles both resolving to page 5 are a valid duplicate-free set enumeration,
survive `sorted(set(sections), key=...)` as two Sections for page 5, and
the splitter writes two output files (one of them zero-page), not one. -/
theorem duplicate_page_counterexample :
    IsSetOrder [(("A" : String), 5), (("B" : String), 5)]
      [(("A" : String), 5), (("B" : String), 5)] ∧
    ((sortByPage [(("A" : String), 5), (("B" : String), 5)]).filter
      (fun s => s.2 == 5)).length = 2 ∧
    writeCount (splitPdf true "in" [(("A" : String), 5), (("B" : String), 5)]
      [(("A" : String), 5), (("B" : String), 5)] 10) = 2 := by
  decide

/-- Claim C3 (amended): bookmarks resolving to the same `(title, pageIndex)`
*pair* are collapsed: the pair occurs exactly once in the sorted
deduplicated sequence, and the splitter writes exactly one file per
deduplicated section (so the duplicate itself contributes no extra file).
Deduplication is by the full pair, so two same-page bookmarks with
different titles are *not* collapsed. -/
theorem duplicate_pair_collapsed (inputPath : String) (raw order : List Sec) (p : Sec)
    (total : Nat) (h : IsSetOrder raw order) (hp : p ∈ raw) :
    ((sortByPage order).filter (fun s => decide (s = p))).length = 1 ∧
    writeCount (splitPdf true inputPath raw order total) = order.length := by
  constructor
  · have hnd : (sortByPage order).Nodup := ((sortByPage_perm order).nodup_iff).mpr h.1
    have hmem : p ∈ sortByPage order := (sortByPage_perm order).mem_iff.mpr (h.2.2 p hp)
    exact filter_eq_length_one hnd hmem
  · exact writeCount_splitPdf inputPath raw order total (List.ne_nil_of_mem hp)

/-- Witness for C3 (amended): the pair `("A", 5)` appearing twice in the
resolver output is collapsed to one section and one output file. -/
theorem duplicate_pair_collapsed_witness :
    ((sortByPage [(("A" : String), 5)]).filter
      (fun s => decide (s = (("A" : String), 5)))).length = 1 ∧
    writeCount (splitPdf true "in" [(("A" : String), 5), (("A" : String), 5)]
      [(("A" : String), 5)] 6) = 1 :=
  duplicate_pair_collapsed "in" [(("A" : String), 5), (("A" : String), 5)]
    [(("A" : String), 5)] (("A" : String), 5) 6 (by decide) (by decide)

/-! ## Determinism of two runs (C6) -/

/-- Counterexample to claim C6 as stated: with two distinct titles on the
same page, both enumerations are valid iteration orders of the same Python
set (whose order is not determined by the element set: string hashing is
randomized per process), the stable sort keeps either tie order, and the
two runs produce different output file sets. -/
theorem iteration_order_counterexample :
    IsSetOrder [(("A" : String), 5), (("B" : String), 5)]
      [(("A" : String), 5), (("B" : String), 5)] ∧
    IsSetOrder [(("A" : String), 5), (("B" : String), 5)]
      [(("B" : String), 5), (("A" : String), 5)] ∧
    sectionOutputs (sortByPage [(("A" : String), 5), (("B" : String), 5)]) 10
      ≠ sectionOutputs (sortByPage [(("B" : String), 5), (("A" : String), 5)]) 10 := by
  decide

/-- Strict-or-equal order on sections by page index, antisymmetric, used to
pin down the sorted sequence when page indexes are injective. -/
def pageLtEq (a b : Sec) : Prop := a.2 < b.2 ∨ a = b

instance : IsAntisymm Sec pageLtEq := by
  constructor
  intro a b h1 h2
  rcases h1 with h1 | h1
  · rcases h2 with h2 | h2
    · omega
    · exact h2.symm
  · exact h1

theorem pairwise_pageLtEq_of_inj {raw l : List Sec}
    (hsub : ∀ x ∈ l, x ∈ raw) (hnd : l.Nodup) (hpw : l.Pairwise pageLe)
    (hinj : ∀ x ∈ raw, ∀ y ∈ raw, x.2 = y.2 → x = y) :
    l.Pairwise pageLtEq := by
  have hand : l.Pairwise (fun a b => pageLe a b ∧ a ≠ b) := hpw.and hnd
  apply List.Pairwise.imp_of_mem ?_ hand
  intro a b ha hb hab
  rcases hab with ⟨hle, hne⟩
  have hne2 : a.2 ≠ b.2 := fun hq => hne (hinj a (hsub a ha) b (hsub b hb) hq)
  have hle2 : a.2 ≤ b.2 := hle
  left
  omega

/-- Claim C6 (amended): two runs on the same input are identical provided no
two distinct deduplicated sections share a page index (equal-page ties are
ordered by the set-iteration order, which Python's randomized string
hashing does not keep fixed across runs): any two valid set-iteration
orders of the same resolver output produce identical effects. -/
theorem deterministic_outputs (inputPath : String) (raw o1 o2 : List Sec) (total : Nat)
    (h1 : IsSetOrder raw o1) (h2 : IsSetOrder raw o2)
    (hinj : ∀ x ∈ raw, ∀ y ∈ raw, x.2 = y.2 → x = y) :
    splitPdf true inputPath raw o1 total = splitPdf true inputPath raw o2 total := by
  have hsort : sortByPage o1 = sortByPage o2 := by
    have hperm12 : List.Perm o1 o2 :=
      (List.perm_ext_iff_of_nodup h1.1 h2.1).mpr
        (fun a => ⟨fun ha => h2.2.2 a (h1.2.1 a ha), fun ha => h1.2.2 a (h2.2.1 a ha)⟩)
    have hperm : List.Perm (sortByPage o1) (sortByPage o2) :=
      ((sortByPage_perm o1).trans hperm12).trans (sortByPage_perm o2).symm
    have hs1 : (sortByPage o1).Pairwise pageLtEq :=
      pairwise_pageLtEq_of_inj
        (fun x hx => h1.2.1 x ((sortByPage_perm o1).mem_iff.mp hx))
        (((sortByPage_perm o1).nodup_iff).mpr h1.1)
        (sortByPage_pairwise o1) hinj
    have hs2 : (sortByPage o2).Pairwise pageLtEq :=
      pairwise_pageLtEq_of_inj
        (fun x hx => h2.2.1 x ((sortByPage_perm o2).mem_iff.mp hx))
        (((sortByPage_perm o2).nodup_iff).mpr h2.1)
        (sortByPage_pairwise o2) hinj
    exact List.eq_of_perm_of_sorted hperm hs1 hs2
  unfold splitPdf
  rw [hsort]

/-- Witness for C6 (amended): distinct page indexes, two different
iteration orders, same output. -/
theorem deterministic_outputs_witness :
    splitPdf true "in" [(("A" : String), 0), (("B" : String), 2)]
      [(("A" : String), 0), (("B" : String), 2)] 4
    = splitPdf true "in" [(("A" : String), 0), (("B" : String), 2)]
      [(("B" : String), 2), (("A" : String), 0)] 4 :=
  deterministic_outputs "in" [(("A" : String), 0), (("B" : String), 2)]
    [(("A" : String), 0), (("B" : String), 2)]
    [(("B" : String), 2), (("A" : String), 0)] 4 (by decide) (by decide) (by decide)

/-! ## Per-node failure aborts remaining siblings (C2) -/

/-- Claim C2 is violated by the code: the `try`/`except` in
`process_outlines` wraps the whole `for` loop, so an exception raised while
processing one node (here `B`, whose destination access raises) is caught
*outside* the loop and the sections gathered so far are returned — the
failing node's later sibling `C`, although healthy and resolvable to page
1, contributes nothing.  The claim (and §4.1.3 of the spec) requires `C`'s
section to be present. -/
theorem error_aborts_siblings :
    processOutlines [100, 200]
      [ONode.mk (some "A") false (some (some [100])) [],
       ONode.mk (some "B") true none [],
       ONode.mk (some "C") false (some (some [200])) []]
      = [(("A" : String), 0)] := by
  simp [processOutlines]

end PdfSplitter
